import Mathlib

/-!
Shallow embedding of the mud-16 co-simulation harness (`main.cpp`).

The harness drives an opaque hardware core (the PPU) through a pin
interface.  We embed the harness-side components the specification talks
about: the memory subsystem (`simulate_memory`), the bus arbiter
(`simulate_cpu_arbitration`), the constructor's pin initialisation, the
RAM test-pattern initialisation (`init_ram_pattern`), and the per-tick
frame-buffer capture loop of `main`.

One-bit pins are modelled as `Nat` values (the C++ code compares them
against `0`/`1` and tests truthiness); 32-bit quantities are `Nat` with
an explicit reduction `% 2^32` where C++ `uint32_t` arithmetic can wrap.
The memory image is a total function `Nat → Nat` of byte values; the
grant-delay counter is an `Int`, mirroring the C++ `int`.
-/

/-- Frame width in pixels (`WIDTH` in `main.cpp`). -/
def WIDTH : Nat := 320

/-- Frame height in pixels (`HEIGHT` in `main.cpp`). -/
def HEIGHT : Nat := 240

/-- Capacity of the memory image in bytes (`RAM_SIZE = 1024*1024`). -/
def RAM_SIZE : Nat := 1024 * 1024

/-- The memory image: byte value at each address. -/
def Mem : Type := Nat → Nat

/-- Reduction of a `Nat` to 32-bit unsigned range, modelling `uint32_t`
arithmetic wraparound. -/
def U32 (x : Nat) : Nat := x % 4294967296

/-- A single byte store, modelling `ram[a] = v`. -/
def store (a v : Nat) (m : Mem) : Mem := fun j => if j = a then v else m j

/-- The PPU output pins sampled by `simulate_memory` during one tick. -/
structure MemSig where
  ppu_bgack_n : Nat
  cpu_bus_oe_n : Nat
  mem_read : Nat
  mem_write : Nat
  mem_addr : Nat
  mem_wdata : Nat

/-- The value of `ppu->mem_rdata` after one `simulate_memory` call, given
the memory image `ram` and the previous `mem_rdata` value.  Mirrors
`Mud16System::simulate_memory`: with mastership
(`ppu_bgack_n == 0 && cpu_bus_oe_n == 1`) and a read request whose
bounds check `addr + 3 < RAM_SIZE` (computed in `uint32_t`) passes, the
four bytes are assembled little-endian; if the bounds check fails the
register is left untouched; without mastership it is forced to `0`. -/
def mem_rdata_next (sig : MemSig) (ram : Mem) (rdata : Nat) : Nat :=
  if sig.ppu_bgack_n = 0 ∧ sig.cpu_bus_oe_n = 1 then
    if sig.mem_read ≠ 0 then
      if U32 (sig.mem_addr + 3) < RAM_SIZE then
        ram sig.mem_addr |||
          (ram (U32 (sig.mem_addr + 1)) <<< 8) |||
          (ram (U32 (sig.mem_addr + 2)) <<< 16) |||
          (ram (U32 (sig.mem_addr + 3)) <<< 24)
      else rdata
    else rdata
  else 0

/-- The memory image after one `simulate_memory` call.  With mastership,
a write request whose bounds check passes stores the four little-endian
bytes of `mem_wdata` at `addr .. addr+3` (index arithmetic in
`uint32_t`); in every other case the image is untouched. -/
def mem_ram_next (sig : MemSig) (ram : Mem) : Mem :=
  if sig.ppu_bgack_n = 0 ∧ sig.cpu_bus_oe_n = 1 then
    if sig.mem_write ≠ 0 then
      if U32 (sig.mem_addr + 3) < RAM_SIZE then
        store (U32 (sig.mem_addr + 3)) ((sig.mem_wdata >>> 24) &&& 255)
          (store (U32 (sig.mem_addr + 2)) ((sig.mem_wdata >>> 16) &&& 255)
            (store (U32 (sig.mem_addr + 1)) ((sig.mem_wdata >>> 8) &&& 255)
              (store sig.mem_addr (sig.mem_wdata &&& 255) ram)))
      else ram
    else ram
  else ram

/-- One full `simulate_memory` step: the new memory image paired with the
new `mem_rdata` value (the read is serviced from the pre-write image,
matching the statement order in the C++ body). -/
def simulate_memory (sig : MemSig) (ram : Mem) (rdata : Nat) : Mem × Nat :=
  (mem_ram_next sig ram, mem_rdata_next sig ram rdata)

/-- Iterated `simulate_memory` over a list of per-tick pin samples. -/
def memRun : List MemSig → Mem × Nat → Mem × Nat
  | [], st => st
  | sig :: rest, st => memRun rest (simulate_memory sig st.1 st.2)

/-- The harness-side state touched by `simulate_cpu_arbitration`: the two
pins it drives and the grant-delay counter. -/
structure ArbState where
  cpu_bg_n : Nat
  cpu_as_n : Nat
  cpu_grant_delay_counter : Int

/-- One `Mud16System::simulate_cpu_arbitration` step.  `ppu_br_n` and
`ppu_bgack_n` are the core's outputs sampled this tick, `tick_count` the
current (pre-increment) tick counter. -/
def simulate_cpu_arbitration (ppu_br_n ppu_bgack_n : Nat) (tick_count : Nat)
    (s : ArbState) : ArbState :=
  if ppu_br_n = 0 then
    if s.cpu_grant_delay_counter < 4 then
      { s with cpu_grant_delay_counter := s.cpu_grant_delay_counter + 1 }
    else
      { s with cpu_bg_n := 0, cpu_as_n := 1 }
  else
    if ppu_bgack_n = 1 then
      { cpu_bg_n := 1, cpu_grant_delay_counter := 0,
        cpu_as_n := if tick_count % 4 = 0 then 0 else 1 }
    else
      { s with cpu_bg_n := 1, cpu_grant_delay_counter := 0 }

/-- Arbiter-visible state established by the `Mud16System` constructor:
`cpu_bg_n = 1` (not granted), `cpu_as_n = 1` (strobe inactive), counter
`0` (field initialiser). -/
def initArbState : ArbState :=
  { cpu_bg_n := 1, cpu_as_n := 1, cpu_grant_delay_counter := 0 }

/-- The arbiter state after `n` ticks, given the core's `ppu_br_n` and
`ppu_bgack_n` output sequences.  The step at tick `n` observes
`tick_count = n`, because `tick()` increments the counter after running
the arbiter. -/
def runArb (br bgack : Nat → Nat) : Nat → ArbState
  | 0 => initArbState
  | n + 1 => simulate_cpu_arbitration (br n) (bgack n) n (runArb br bgack n)

/-- The core's harness-driven pins (inputs of the Verilated model that
`main.cpp` ever assigns, plus `mem_rdata`). -/
structure CorePins where
  clk : Nat
  reset : Nat
  mem_rdata : Nat
  cpu_bg_n : Nat
  cpu_as_n : Nat

/-- Pin assignments performed by the `Mud16System` constructor before the
first `eval()`: only `clk`, `reset`, `cpu_bg_n` and `cpu_as_n` are
written; any other pin keeps the value it already had. -/
def ctor_pins (p : CorePins) : CorePins :=
  { p with clk := 0, reset := 1, cpu_bg_n := 1, cpu_as_n := 1 }

/-- One pixel write of `init_ram_pattern`: at `addr = (y*WIDTH + x) * 4`,
when `addr + 3 < RAM_SIZE`, store the gradient bytes
`{x & 0xFF, y & 0xFF, (x+y) & 0xFF, 0xFF}`. -/
def writePix (m : Mem) (x y : Nat) : Mem :=
  if (y * WIDTH + x) * 4 + 3 < RAM_SIZE then
    store ((y * WIDTH + x) * 4 + 3) 255
      (store ((y * WIDTH + x) * 4 + 2) ((x + y) &&& 255)
        (store ((y * WIDTH + x) * 4 + 1) (y &&& 255)
          (store ((y * WIDTH + x) * 4) (x &&& 255) m)))
  else m

/-- The inner `for (x = 0; x < n; x++)` loop of `init_ram_pattern` on
row `y`. -/
def rowLoop (m : Mem) (y : Nat) : Nat → Mem
  | 0 => m
  | x + 1 => writePix (rowLoop m y x) x y

/-- The outer `for (y = 0; y < n; y++)` loop of `init_ram_pattern`. -/
def rowsLoop (m : Mem) : Nat → Mem
  | 0 => m
  | y + 1 => rowLoop (rowsLoop m y) y WIDTH

/-- `Mud16System::init_ram_pattern` applied to a memory image. -/
def init_ram_pattern (m : Mem) : Mem := rowsLoop m HEIGHT

/-- The memory image right after construction: `memset` to zero followed
by `init_ram_pattern`. -/
def initRam : Mem := init_ram_pattern (fun _ => 0)

/-- Frame-buffer capacity in bytes: `WIDTH * HEIGHT * 4` RGBA bytes. -/
def FB_CAP : Nat := WIDTH * HEIGHT * 4

/-- Frame Assembler state in the body of `main`: the `static int p_idx`
cyclic write index, the pixel byte buffer, and a ghost counter recording
how many times the index has wrapped back to `0`. -/
structure FBState where
  p_idx : Nat
  wraps : Nat
  buf : Nat → Nat

/-- One per-tick frame-capture step from the loop body in `main`: if
`p_idx < WIDTH*HEIGHT*4`, append the tick's `{r, g, b, 255}` sample at
`p_idx .. p_idx+3` and advance the index by 4; then, if the index has
reached capacity, wrap it to `0` (counted by the ghost field `wraps`).
`pix t` is the core's `(pixel_r, pixel_g, pixel_b)` output after tick
`t`. -/
def fbStep (pix : Nat → Nat × Nat × Nat) (t : Nat) (s : FBState) : FBState :=
  let s1 : FBState :=
    if s.p_idx < FB_CAP then
      { s with
        p_idx := s.p_idx + 4,
        buf := store (s.p_idx + 3) 255
          (store (s.p_idx + 2) (pix t).2.2
            (store (s.p_idx + 1) (pix t).2.1
              (store s.p_idx (pix t).1 s.buf))) }
    else s
  if FB_CAP ≤ s1.p_idx then { s1 with p_idx := 0, wraps := s1.wraps + 1 }
  else s1

/-- `n` consecutive frame-capture steps starting at tick `t0`. -/
def fbRun (pix : Nat → Nat × Nat × Nat) (t0 : Nat) : Nat → FBState → FBState
  | 0, s => s
  | n + 1, s => fbStep pix (t0 + n) (fbRun pix t0 n s)

/-- Byte `j` of the pixel stream laid out from tick `t0`: samples are 4
bytes each, `{r, g, b, 255}`. -/
def pixByte (pix : Nat → Nat × Nat × Nat) (t0 j : Nat) : Nat :=
  if j % 4 = 0 then (pix (t0 + j / 4)).1
  else if j % 4 = 1 then (pix (t0 + j / 4)).2.1
  else if j % 4 = 2 then (pix (t0 + j / 4)).2.2
  else 255

/-! ### Basic store lemmas -/

theorem store_same (a v : Nat) (m : Mem) : store a v m a = v := if_pos rfl

theorem store_other (a v j : Nat) (m : Mem) (h : j ≠ a) : store a v m j = m j :=
  if_neg h

/-! ### Memory subsystem -/

/-- Claim C1: whenever the mastership predicate
(`ppu_bgack_n == 0 && cpu_bus_oe_n == 1`) is false, a `simulate_memory`
step forces `mem_rdata` to `0` and leaves every byte of the memory image
unchanged, so requests are serviced only under mastership. -/
theorem c1_mutual_exclusion (sig : MemSig) (ram : Mem) (rdata : Nat)
    (h : ¬ (sig.ppu_bgack_n = 0 ∧ sig.cpu_bus_oe_n = 1)) :
    (simulate_memory sig ram rdata).2 = 0 ∧
      ∀ a, (simulate_memory sig ram rdata).1 a = ram a := by
  constructor
  · show mem_rdata_next sig ram rdata = 0
    unfold mem_rdata_next
    rw [if_neg h]
  · intro a
    show mem_ram_next sig ram a = ram a
    unfold mem_ram_next
    rw [if_neg h]

theorem c1_mutual_exclusion_witness :
    (simulate_memory ⟨1, 1, 1, 1, 0, 9⟩ (fun _ => 7) 9).2 = 0 ∧
      (simulate_memory ⟨1, 1, 1, 1, 0, 9⟩ (fun _ => 7) 9).1 3 = 7 := by
  have h := c1_mutual_exclusion ⟨1, 1, 1, 1, 0, 9⟩ (fun _ => 7) 9 (by decide)
  exact ⟨h.1, (h.2 3).trans rfl⟩

/-- Claim C2 counterexample: with mastership held and a read request at
the out-of-bounds address `RAM_SIZE` (so `addr + 3 ≥ capacity`), the
code leaves `mem_rdata` at its previous value (here `5`) instead of
returning `0`. -/
theorem c2_counterexample :
    (simulate_memory ⟨0, 1, 1, 0, RAM_SIZE, 0⟩ (fun _ => 0) 5).2 = 5 ∧
      (5 : Nat) ≠ 0 := by
  constructor
  · show mem_rdata_next ⟨0, 1, 1, 0, RAM_SIZE, 0⟩ (fun _ => 0) 5 = 5
    decide
  · decide

/-- Claim C2 (amended): for an address `A` with `A + 3 ≥ capacity` whose
bounds computation does not wrap 32-bit arithmetic (`A + 3 < 2^32`),
under mastership a read request leaves `mem_rdata` unchanged (it is not
forced to `0`) and a write request leaves the memory image bit-for-bit
unchanged; neither case is an error. -/
theorem c2_oob_fallback (sig : MemSig) (ram : Mem) (rdata : Nat)
    (hm : sig.ppu_bgack_n = 0 ∧ sig.cpu_bus_oe_n = 1)
    (hwrap : sig.mem_addr + 3 < 4294967296)
    (hge : RAM_SIZE ≤ sig.mem_addr + 3) :
    (simulate_memory sig ram rdata).2 = rdata ∧
      ∀ a, (simulate_memory sig ram rdata).1 a = ram a := by
  have hU : U32 (sig.mem_addr + 3) = sig.mem_addr + 3 := Nat.mod_eq_of_lt hwrap
  have hnot : ¬ U32 (sig.mem_addr + 3) < RAM_SIZE := by
    rw [hU]; omega
  constructor
  · show mem_rdata_next sig ram rdata = rdata
    unfold mem_rdata_next
    rw [if_pos hm, if_neg hnot]
    split <;> rfl
  · have hram : mem_ram_next sig ram = ram := by
      unfold mem_ram_next
      rw [if_pos hm, if_neg hnot]
      split <;> rfl
    intro a
    show mem_ram_next sig ram a = ram a
    rw [hram]

theorem c2_oob_fallback_witness :
    (simulate_memory ⟨0, 1, 1, 1, RAM_SIZE, 3⟩ (fun _ => 2) 5).2 = 5 ∧
      (simulate_memory ⟨0, 1, 1, 1, RAM_SIZE, 3⟩ (fun _ => 2) 5).1 0 = 2 := by
  have h := c2_oob_fallback ⟨0, 1, 1, 1, RAM_SIZE, 3⟩ (fun _ => 2) 5
    (by decide) (by decide) (by decide)
  exact ⟨h.1, (h.2 0).trans rfl⟩

/-! ### Bus arbiter: single-step claims -/

/-- Claim C5: in an arbiter step with bus-request deasserted
(`ppu_br_n ≠ 0`) and bus-grant-acknowledge deasserted
(`ppu_bgack_n == 1`), the address strobe is driven low exactly when
`tick_count % 4 == 0`, bus-grant is deasserted, and the grant-delay
counter is reset to `0`. -/
theorem c5_default_master (br bgack t : Nat) (s : ArbState)
    (hbr : br ≠ 0) (hack : bgack = 1) :
    ((simulate_cpu_arbitration br bgack t s).cpu_as_n = 0 ↔ t % 4 = 0) ∧
      (simulate_cpu_arbitration br bgack t s).cpu_bg_n = 1 ∧
      (simulate_cpu_arbitration br bgack t s).cpu_grant_delay_counter = 0 := by
  unfold simulate_cpu_arbitration
  rw [if_neg hbr, if_pos hack]
  refine ⟨?_, rfl, rfl⟩
  by_cases h : t % 4 = 0
  · simp [h]
  · simp [h]

theorem c5_default_master_witness :
    (((simulate_cpu_arbitration 1 1 8 initArbState).cpu_as_n = 0 ↔
        (8 : Nat) % 4 = 0) ∧
      (simulate_cpu_arbitration 1 1 8 initArbState).cpu_bg_n = 1 ∧
      (simulate_cpu_arbitration 1 1 8 initArbState).cpu_grant_delay_counter
        = 0) ∧
    ((simulate_cpu_arbitration 1 1 9 initArbState).cpu_as_n = 0 ↔
        (9 : Nat) % 4 = 0) :=
  ⟨c5_default_master 1 1 8 initArbState (by decide) rfl,
    (c5_default_master 1 1 9 initArbState (by decide) rfl).1⟩

/-- Claim C9: during the grant-delay window (bus-request asserted and
counter `< 4`), an arbiter step increments only the counter; the
`cpu_bg_n` and `cpu_as_n` pins keep the values they had before the
step. -/
theorem c9_wait_frame (br bgack t : Nat) (s : ArbState)
    (hbr : br = 0) (hc : s.cpu_grant_delay_counter < 4) :
    (simulate_cpu_arbitration br bgack t s).cpu_bg_n = s.cpu_bg_n ∧
      (simulate_cpu_arbitration br bgack t s).cpu_as_n = s.cpu_as_n ∧
      (simulate_cpu_arbitration br bgack t s).cpu_grant_delay_counter
        = s.cpu_grant_delay_counter + 1 := by
  unfold simulate_cpu_arbitration
  rw [if_pos hbr, if_pos hc]
  exact ⟨rfl, rfl, rfl⟩

theorem c9_wait_frame_witness :
    (simulate_cpu_arbitration 0 1 3 ⟨1, 0, 2⟩).cpu_bg_n = 1 ∧
      (simulate_cpu_arbitration 0 1 3 ⟨1, 0, 2⟩).cpu_as_n = 0 ∧
      (simulate_cpu_arbitration 0 1 3 ⟨1, 0, 2⟩).cpu_grant_delay_counter
        = 2 + 1 :=
  c9_wait_frame 0 1 3 ⟨1, 0, 2⟩ rfl (by decide)

/-! ### Constructor pin state -/

/-- Claim C7 counterexample: the constructor drives `cpu_bg_n` to `1`
("not granted" in the active-low convention), not `0` as the claim
states, and it does not assign `mem_rdata` at all (here the pre-existing
value `7` survives). -/
theorem c7_counterexample :
    (ctor_pins ⟨5, 5, 7, 0, 0⟩).cpu_bg_n = 1 ∧
      (ctor_pins ⟨5, 5, 7, 0, 0⟩).cpu_bg_n ≠ 0 ∧
      (ctor_pins ⟨5, 5, 7, 0, 0⟩).mem_rdata = 7 := by
  decide

/-- Claim C7 (amended): after the constructor's pin assignments and
before the first evaluation, `clk = 0`, `reset = 1`, `cpu_bg_n = 1`
(bus-grant deasserted, i.e. not granted) and `cpu_as_n = 1` (strobe
inactive); `mem_rdata` is not assigned and keeps whatever value it had
(and the bus-driver-enable line `cpu_bus_oe_n` is an output of the core,
not something the constructor sets). -/
theorem c7_ctor_pins (p : CorePins) :
    (ctor_pins p).clk = 0 ∧ (ctor_pins p).reset = 1 ∧
      (ctor_pins p).cpu_bg_n = 1 ∧ (ctor_pins p).cpu_as_n = 1 ∧
      (ctor_pins p).mem_rdata = p.mem_rdata :=
  ⟨rfl, rfl, rfl, rfl, rfl⟩

/-! ### Bus arbiter: runs and reachability -/

/-- Invariant of every reachable arbiter state: the counter stays in
`[0, 4]`, and whenever it is `0` the grant pin is deasserted. -/
theorem arb_inv (br bgack : Nat → Nat) (n : Nat) :
    0 ≤ (runArb br bgack n).cpu_grant_delay_counter ∧
      (runArb br bgack n).cpu_grant_delay_counter ≤ 4 ∧
      ((runArb br bgack n).cpu_grant_delay_counter = 0 →
        (runArb br bgack n).cpu_bg_n = 1) := by
  induction n with
  | zero =>
    refine ⟨?_, ?_, ?_⟩ <;> simp [runArb, initArbState]
  | succ n ih =>
    obtain ⟨h0, h4, hbg⟩ := ih
    have hstep : runArb br bgack (n + 1)
        = simulate_cpu_arbitration (br n) (bgack n) n (runArb br bgack n) := rfl
    rw [hstep]
    unfold simulate_cpu_arbitration
    split
    · split
      next hlt =>
        refine ⟨?_, ?_, ?_⟩ <;> dsimp only
        · omega
        · omega
        · intro h
          exact absurd h (by omega)
      next hlt =>
        refine ⟨?_, ?_, ?_⟩ <;> dsimp only
        · omega
        · omega
        · intro h
          exact absurd h (by omega)
    · split
      · exact ⟨by dsimp only; decide, by dsimp only; decide, fun _ => rfl⟩
      · exact ⟨by dsimp only; decide, by dsimp only; decide, fun _ => rfl⟩

/-- Claim C8: in every state reachable from construction, for any
behaviour of the core's `ppu_br_n` and `ppu_bgack_n` outputs, the
grant-delay counter lies in the range `[0, 4]`. -/
theorem c8_counter_range (br bgack : Nat → Nat) (n : Nat) :
    0 ≤ (runArb br bgack n).cpu_grant_delay_counter ∧
      (runArb br bgack n).cpu_grant_delay_counter ≤ 4 :=
  ⟨(arb_inv br bgack n).1, (arb_inv br bgack n).2.1⟩

/-- Claim C3: from any reachable state at tick `N` whose grant-delay
counter is `0`, if the core holds `ppu_br_n = 0` from tick `N` onward,
then the grant pin stays deasserted after the steps of ticks
`N .. N+3`, is asserted (`cpu_bg_n = 0`) after the step of tick `N+4`,
and stays asserted at every later tick while the request persists. -/
theorem c3_grant_latency (br bgack : Nat → Nat) (N : Nat)
    (hreq : ∀ k, br (N + k) = 0)
    (h0 : (runArb br bgack N).cpu_grant_delay_counter = 0) :
    (∀ k, k < 4 → (runArb br bgack (N + k + 1)).cpu_bg_n = 1) ∧
      ∀ k, 4 ≤ k → (runArb br bgack (N + k + 1)).cpu_bg_n = 0 := by
  have hbg : (runArb br bgack N).cpu_bg_n = 1 := (arb_inv br bgack N).2.2 h0
  have hA : ∀ k, k ≤ 4 →
      (runArb br bgack (N + k)).cpu_grant_delay_counter = (k : Int) ∧
        (runArb br bgack (N + k)).cpu_bg_n = 1 := by
    intro k
    induction k with
    | zero => exact fun _ => ⟨h0, hbg⟩
    | succ k ih =>
      intro hk4
      obtain ⟨hc, hb⟩ := ih (by omega)
      have hstep : runArb br bgack (N + (k + 1))
          = simulate_cpu_arbitration (br (N + k)) (bgack (N + k)) (N + k)
              (runArb br bgack (N + k)) := rfl
      rw [hstep]
      unfold simulate_cpu_arbitration
      rw [if_pos (hreq k), if_pos (by rw [hc]; omega)]
      constructor
      · dsimp only
        rw [hc]
        push_cast
        ring
      · exact hb
  have hB : ∀ k, 5 ≤ k →
      (runArb br bgack (N + k)).cpu_grant_delay_counter = 4 ∧
        (runArb br bgack (N + k)).cpu_bg_n = 0 := by
    intro k
    induction k with
    | zero => omega
    | succ k ih =>
      intro hk5
      have step : ∀ c : Int,
          (runArb br bgack (N + k)).cpu_grant_delay_counter = c →
          ¬ c < 4 →
          (runArb br bgack (N + (k + 1))).cpu_grant_delay_counter = c ∧
            (runArb br bgack (N + (k + 1))).cpu_bg_n = 0 := by
        intro c hc hlt
        have hstep : runArb br bgack (N + (k + 1))
            = simulate_cpu_arbitration (br (N + k)) (bgack (N + k)) (N + k)
                (runArb br bgack (N + k)) := rfl
        rw [hstep]
        unfold simulate_cpu_arbitration
        rw [if_pos (hreq k), if_neg (by rw [hc]; exact hlt)]
        exact ⟨hc, rfl⟩
      by_cases hk : 5 ≤ k
      · obtain ⟨hc, _⟩ := ih hk
        exact step 4 hc (by omega)
      · have hk4 : k = 4 := by omega
        subst hk4
        obtain ⟨hc, _⟩ := hA 4 (by omega)
        exact step 4 hc (by omega)
  refine ⟨fun k hk => ?_, fun k hk => ?_⟩
  · exact (hA (k + 1) (by omega)).2
  · exact (hB (k + 1) (by omega)).2

/-! ### Write/read round trip -/

/-- `a` is none of the four byte addresses a `simulate_memory` write
request under `sig` can store to. -/
def untouchedBy (sig : MemSig) (a : Nat) : Prop :=
  a ≠ sig.mem_addr ∧ a ≠ U32 (sig.mem_addr + 1) ∧
    a ≠ U32 (sig.mem_addr + 2) ∧ a ≠ U32 (sig.mem_addr + 3)

theorem mem_ram_next_untouched (sig : MemSig) (ram : Mem) (a : Nat)
    (h : untouchedBy sig a) : mem_ram_next sig ram a = ram a := by
  obtain ⟨h1, h2, h3, h4⟩ := h
  unfold mem_ram_next
  split
  · split
    · split
      · rw [store_other _ _ _ _ h4, store_other _ _ _ _ h3,
          store_other _ _ _ _ h2, store_other _ _ _ _ h1]
      · rfl
    · rfl
  · rfl

theorem memRun_untouched (l : List MemSig) (st : Mem × Nat) (a : Nat)
    (h : ∀ sig ∈ l, untouchedBy sig a) : (memRun l st).1 a = st.1 a := by
  induction l generalizing st with
  | nil => rfl
  | cons sig rest ih =>
    show (memRun rest (simulate_memory sig st.1 st.2)).1 a = st.1 a
    rw [ih _ (fun s hs => h s (List.mem_cons_of_mem _ hs))]
    exact mem_ram_next_untouched sig st.1 a (h sig (List.mem_cons_self _ _))

/-- Effect of a serviced in-bounds write: the four little-endian bytes
of `mem_wdata` land at `mem_addr .. mem_addr + 3`. -/
theorem mem_write_bytes (sig : MemSig) (ram : Mem)
    (hm : sig.ppu_bgack_n = 0 ∧ sig.cpu_bus_oe_n = 1)
    (hw : sig.mem_write ≠ 0) (hb : sig.mem_addr + 3 < RAM_SIZE) :
    mem_ram_next sig ram sig.mem_addr = sig.mem_wdata &&& 255 ∧
      mem_ram_next sig ram (sig.mem_addr + 1) = (sig.mem_wdata >>> 8) &&& 255 ∧
      mem_ram_next sig ram (sig.mem_addr + 2) = (sig.mem_wdata >>> 16) &&& 255 ∧
      mem_ram_next sig ram (sig.mem_addr + 3) = (sig.mem_wdata >>> 24) &&& 255 := by
  have hsz : sig.mem_addr + 3 < 1048576 := by
    have : RAM_SIZE = 1048576 := by decide
    omega
  have e1 : U32 (sig.mem_addr + 1) = sig.mem_addr + 1 := Nat.mod_eq_of_lt (by omega)
  have e2 : U32 (sig.mem_addr + 2) = sig.mem_addr + 2 := Nat.mod_eq_of_lt (by omega)
  have e3 : U32 (sig.mem_addr + 3) = sig.mem_addr + 3 := Nat.mod_eq_of_lt (by omega)
  have hguard : U32 (sig.mem_addr + 3) < RAM_SIZE := by rw [e3]; exact hb
  unfold mem_ram_next
  rw [if_pos hm, if_pos hw, if_pos hguard, e1, e2, e3]
  refine ⟨?_, ?_, ?_, ?_⟩
  · rw [store_other _ _ _ _ (by omega), store_other _ _ _ _ (by omega),
      store_other _ _ _ _ (by omega), store_same]
  · rw [store_other _ _ _ _ (by omega), store_other _ _ _ _ (by omega),
      store_same]
  · rw [store_other _ _ _ _ (by omega), store_same]
  · rw [store_same]

/-- A serviced in-bounds read assembles the four bytes little-endian. -/
theorem mem_read_value (sig : MemSig) (ram : Mem) (rdata : Nat)
    (hm : sig.ppu_bgack_n = 0 ∧ sig.cpu_bus_oe_n = 1)
    (hr : sig.mem_read ≠ 0) (hb : sig.mem_addr + 3 < RAM_SIZE) :
    mem_rdata_next sig ram rdata =
      ram sig.mem_addr ||| (ram (sig.mem_addr + 1) <<< 8) |||
        (ram (sig.mem_addr + 2) <<< 16) ||| (ram (sig.mem_addr + 3) <<< 24) := by
  have hsz : sig.mem_addr + 3 < 1048576 := by
    have : RAM_SIZE = 1048576 := by decide
    omega
  have e1 : U32 (sig.mem_addr + 1) = sig.mem_addr + 1 := Nat.mod_eq_of_lt (by omega)
  have e2 : U32 (sig.mem_addr + 2) = sig.mem_addr + 2 := Nat.mod_eq_of_lt (by omega)
  have e3 : U32 (sig.mem_addr + 3) = sig.mem_addr + 3 := Nat.mod_eq_of_lt (by omega)
  have hguard : U32 (sig.mem_addr + 3) < RAM_SIZE := by rw [e3]; exact hb
  unfold mem_rdata_next
  rw [if_pos hm, if_pos hr, if_pos hguard, e1, e2, e3]

/-- Claim C4 counterexample: the claim admits reading "on the same
tick" as the write, but a read and a write in the same tick are
serviced in one `simulate_memory` call where the read is assembled from
the pre-write image: writing `0xAABBCCDD` to address `0` of an all-zero
image while also reading address `0` returns `0`, not `0xAABBCCDD` —
even though the bytes are written afterwards. -/
theorem c4_counterexample :
    (simulate_memory ⟨0, 1, 1, 1, 0, 0xAABBCCDD⟩ (fun _ => 0) 0).2 = 0 ∧
      (0 : Nat) ≠ 0xAABBCCDD ∧
      (simulate_memory ⟨0, 1, 1, 1, 0, 0xAABBCCDD⟩ (fun _ => 0) 0).1 0
        = 0xDD := by
  refine ⟨?_, by decide, ?_⟩
  · show mem_rdata_next ⟨0, 1, 1, 1, 0, 0xAABBCCDD⟩ (fun _ => 0) 0 = 0
    decide
  · show mem_ram_next ⟨0, 1, 1, 1, 0, 0xAABBCCDD⟩ (fun _ => 0) 0 = 0xDD
    decide

/-- Claim C4 (amended): with the mastership predicate held, writing
`0xAABBCCDD` to an in-bounds address `A` and then reading `A` on a
strictly later tick — under continued mastership, with no intervening
write touching any byte of `[A .. A+3]` — returns `0xAABBCCDD`, and at
read time the bytes at `[A .. A+3]` are `{0xDD, 0xCC, 0xBB, 0xAA}`. (A
read issued on the very tick of the write returns the pre-write
value.) -/
theorem c4_round_trip (A : Nat) (ram : Mem) (rdata : Nat)
    (sigW : MemSig) (mid : List MemSig) (sigR : MemSig)
    (hA : A + 3 < RAM_SIZE)
    (hWm : sigW.ppu_bgack_n = 0 ∧ sigW.cpu_bus_oe_n = 1)
    (hWw : sigW.mem_write ≠ 0) (hWa : sigW.mem_addr = A)
    (hWd : sigW.mem_wdata = 0xAABBCCDD)
    (hmid : ∀ sig ∈ mid, (sig.ppu_bgack_n = 0 ∧ sig.cpu_bus_oe_n = 1) ∧
      ∀ a, A ≤ a → a ≤ A + 3 → untouchedBy sig a)
    (hRm : sigR.ppu_bgack_n = 0 ∧ sigR.cpu_bus_oe_n = 1)
    (hRr : sigR.mem_read ≠ 0) (hRa : sigR.mem_addr = A) :
    (memRun mid (simulate_memory sigW ram rdata)).1 A = 0xDD ∧
      (memRun mid (simulate_memory sigW ram rdata)).1 (A + 1) = 0xCC ∧
      (memRun mid (simulate_memory sigW ram rdata)).1 (A + 2) = 0xBB ∧
      (memRun mid (simulate_memory sigW ram rdata)).1 (A + 3) = 0xAA ∧
      (simulate_memory sigR (memRun mid (simulate_memory sigW ram rdata)).1
        (memRun mid (simulate_memory sigW ram rdata)).2).2 = 0xAABBCCDD := by
  have hw := mem_write_bytes sigW ram hWm hWw (by rw [hWa]; exact hA)
  rw [hWa, hWd] at hw
  have hmidA : ∀ a, A ≤ a → a ≤ A + 3 →
      (memRun mid (simulate_memory sigW ram rdata)).1 a
        = mem_ram_next sigW ram a :=
    fun a h1 h2 =>
      memRun_untouched mid _ a (fun sig hs => (hmid sig hs).2 a h1 h2)
  have b0 : (memRun mid (simulate_memory sigW ram rdata)).1 A = 0xDD := by
    rw [hmidA A (by omega) (by omega)]
    rw [hw.1]
    decide
  have b1 : (memRun mid (simulate_memory sigW ram rdata)).1 (A + 1) = 0xCC := by
    rw [hmidA (A + 1) (by omega) (by omega)]
    rw [hw.2.1]
    decide
  have b2 : (memRun mid (simulate_memory sigW ram rdata)).1 (A + 2) = 0xBB := by
    rw [hmidA (A + 2) (by omega) (by omega)]
    rw [hw.2.2.1]
    decide
  have b3 : (memRun mid (simulate_memory sigW ram rdata)).1 (A + 3) = 0xAA := by
    rw [hmidA (A + 3) (by omega) (by omega)]
    rw [hw.2.2.2]
    decide
  refine ⟨b0, b1, b2, b3, ?_⟩
  show mem_rdata_next sigR (memRun mid (simulate_memory sigW ram rdata)).1
      (memRun mid (simulate_memory sigW ram rdata)).2 = 0xAABBCCDD
  rw [mem_read_value sigR _ _ hRm hRr (by rw [hRa]; exact hA), hRa,
    b0, b1, b2, b3]
  decide

theorem c4_round_trip_witness :
    (memRun [] (simulate_memory ⟨0, 1, 0, 1, 8, 0xAABBCCDD⟩ (fun _ => 0) 0)).1 8
        = 0xDD ∧
      (memRun [] (simulate_memory ⟨0, 1, 0, 1, 8, 0xAABBCCDD⟩ (fun _ => 0) 0)).1 9
        = 0xCC ∧
      (memRun [] (simulate_memory ⟨0, 1, 0, 1, 8, 0xAABBCCDD⟩ (fun _ => 0) 0)).1 10
        = 0xBB ∧
      (memRun [] (simulate_memory ⟨0, 1, 0, 1, 8, 0xAABBCCDD⟩ (fun _ => 0) 0)).1 11
        = 0xAA ∧
      (simulate_memory ⟨0, 1, 1, 0, 8, 0⟩
        (memRun [] (simulate_memory ⟨0, 1, 0, 1, 8, 0xAABBCCDD⟩ (fun _ => 0) 0)).1
        (memRun [] (simulate_memory ⟨0, 1, 0, 1, 8, 0xAABBCCDD⟩ (fun _ => 0) 0)).2).2
        = 0xAABBCCDD :=
  c4_round_trip 8 (fun _ => 0) 0 ⟨0, 1, 0, 1, 8, 0xAABBCCDD⟩ []
    ⟨0, 1, 1, 0, 8, 0⟩ (by decide) (by decide) (by decide) rfl rfl
    (fun sig hs => absurd hs (List.not_mem_nil sig)) (by decide) (by decide) rfl

/-! ### Frame assembler -/

theorem fbStep_mid (pix : Nat → Nat × Nat × Nat) (t : Nat) (s : FBState)
    (h : s.p_idx + 4 < FB_CAP) :
    fbStep pix t s =
      { p_idx := s.p_idx + 4,
        wraps := s.wraps,
        buf := store (s.p_idx + 3) 255 (store (s.p_idx + 2) (pix t).2.2
          (store (s.p_idx + 1) (pix t).2.1
            (store s.p_idx (pix t).1 s.buf))) } := by
  unfold fbStep
  dsimp only
  rw [if_pos (show s.p_idx < FB_CAP by omega)]
  dsimp only
  rw [if_neg (show ¬ FB_CAP ≤ s.p_idx + 4 by omega)]

theorem fbStep_wrap (pix : Nat → Nat × Nat × Nat) (t : Nat) (s : FBState)
    (h : s.p_idx + 4 = FB_CAP) :
    fbStep pix t s =
      { p_idx := 0,
        wraps := s.wraps + 1,
        buf := store (s.p_idx + 3) 255 (store (s.p_idx + 2) (pix t).2.2
          (store (s.p_idx + 1) (pix t).2.1
            (store s.p_idx (pix t).1 s.buf))) } := by
  unfold fbStep
  dsimp only
  rw [if_pos (show s.p_idx < FB_CAP by omega)]
  dsimp only
  rw [if_pos (show FB_CAP ≤ s.p_idx + 4 by omega)]

/-- Appending the sample of tick `t0 + n` to a buffer holding the first
`n` samples yields a buffer holding the first `n + 1` samples. -/
theorem fb_buf_append (pix : Nat → Nat × Nat × Nat) (t0 n : Nat)
    (base cur : Nat → Nat)
    (hb : ∀ j, cur j = if j < 4 * n then pixByte pix t0 j else base j) :
    ∀ j, store (4 * n + 3) 255 (store (4 * n + 2) (pix (t0 + n)).2.2
        (store (4 * n + 1) (pix (t0 + n)).2.1
          (store (4 * n) (pix (t0 + n)).1 cur))) j
      = if j < 4 * (n + 1) then pixByte pix t0 j else base j := by
  intro j
  by_cases hj : j < 4 * n
  · rw [store_other _ _ _ _ (by omega), store_other _ _ _ _ (by omega),
      store_other _ _ _ _ (by omega), store_other _ _ _ _ (by omega),
      hb j, if_pos hj, if_pos (by omega)]
  · by_cases h0 : j = 4 * n
    · subst h0
      rw [store_other _ _ _ _ (by omega), store_other _ _ _ _ (by omega),
        store_other _ _ _ _ (by omega), store_same, if_pos (by omega)]
      have e1 : 4 * n % 4 = 0 := by omega
      have e2 : 4 * n / 4 = n := by omega
      simp [pixByte, e1, e2]
    · by_cases h1 : j = 4 * n + 1
      · subst h1
        rw [store_other _ _ _ _ (by omega), store_other _ _ _ _ (by omega),
          store_same, if_pos (by omega)]
        have e1 : (4 * n + 1) % 4 = 1 := by omega
        have e2 : (4 * n + 1) / 4 = n := by omega
        simp [pixByte, e1, e2]
      · by_cases h2 : j = 4 * n + 2
        · subst h2
          rw [store_other _ _ _ _ (by omega), store_same, if_pos (by omega)]
          have e1 : (4 * n + 2) % 4 = 2 := by omega
          have e2 : (4 * n + 2) / 4 = n := by omega
          simp [pixByte, e1, e2]
        · by_cases h3 : j = 4 * n + 3
          · subst h3
            rw [store_same, if_pos (by omega)]
            have e1 : (4 * n + 3) % 4 = 3 := by omega
            simp [pixByte, e1]
          · rw [store_other _ _ _ _ (by omega), store_other _ _ _ _ (by omega),
              store_other _ _ _ _ (by omega), store_other _ _ _ _ (by omega),
              hb j, if_neg (by omega), if_neg (by omega)]

/-- Running up to one full frame of ticks from index `0`: the index
advances 4 bytes per tick, wraps exactly at `WIDTH*HEIGHT` ticks, and
the buffer prefix holds the samples of the ticks run so far. -/
theorem fbRun_seg (pix : Nat → Nat × Nat × Nat) (t0 : Nat) (s : FBState)
    (h0 : s.p_idx = 0) :
    ∀ n, n ≤ WIDTH * HEIGHT →
      ((fbRun pix t0 n s).p_idx = if n = WIDTH * HEIGHT then 0 else 4 * n) ∧
        ((fbRun pix t0 n s).wraps
          = if n = WIDTH * HEIGHT then s.wraps + 1 else s.wraps) ∧
        ∀ j, (fbRun pix t0 n s).buf j
          = if j < 4 * n then pixByte pix t0 j else s.buf j := by
  intro n
  induction n with
  | zero =>
    intro _
    have hne : ¬ (0 = WIDTH * HEIGHT) := by decide
    refine ⟨by rw [if_neg hne]; exact h0, ?_, ?_⟩
    · rw [if_neg hne]
      rfl
    · intro j
      rw [if_neg (by omega)]
      rfl
  | succ n ih =>
    intro hn
    obtain ⟨hp, hw, hb⟩ := ih (by omega)
    rw [if_neg (by omega)] at hp hw
    have hstep : fbRun pix t0 (n + 1) s
        = fbStep pix (t0 + n) (fbRun pix t0 n s) := rfl
    rw [hstep]
    have eWH : WIDTH * HEIGHT = 76800 := rfl
    have eCAP : FB_CAP = 307200 := rfl
    by_cases hfull : n + 1 = WIDTH * HEIGHT
    · have h4 : (fbRun pix t0 n s).p_idx + 4 = FB_CAP := by
        rw [hp]; omega
      rw [fbStep_wrap pix (t0 + n) _ h4]
      refine ⟨?_, ?_, ?_⟩
      · dsimp only
        rw [if_pos hfull]
      · dsimp only
        rw [if_pos hfull, hw]
      · intro j
        dsimp only
        rw [hp]
        exact fb_buf_append pix t0 n s.buf (fbRun pix t0 n s).buf hb j
    · have h4 : (fbRun pix t0 n s).p_idx + 4 < FB_CAP := by
        rw [hp]; omega
      rw [fbStep_mid pix (t0 + n) _ h4]
      refine ⟨?_, ?_, ?_⟩
      · dsimp only
        rw [if_neg hfull, hp]
        omega
      · dsimp only
        rw [if_neg hfull]
        exact hw
      · intro j
        dsimp only
        rw [hp]
        exact fb_buf_append pix t0 n s.buf (fbRun pix t0 n s).buf hb j

/-- One full frame block of `WIDTH*HEIGHT` ticks from index `0`:
the index returns to `0`, the wrap counter increases by one, and the
whole buffer is overwritten with that block's samples. -/
theorem fbRun_block (pix : Nat → Nat × Nat × Nat) (t0 : Nat) (s : FBState)
    (h0 : s.p_idx = 0) :
    (fbRun pix t0 (WIDTH * HEIGHT) s).p_idx = 0 ∧
      (fbRun pix t0 (WIDTH * HEIGHT) s).wraps = s.wraps + 1 ∧
      ∀ j, (fbRun pix t0 (WIDTH * HEIGHT) s).buf j
        = if j < FB_CAP then pixByte pix t0 j else s.buf j := by
  obtain ⟨hp, hw, hb⟩ := fbRun_seg pix t0 s h0 (WIDTH * HEIGHT) le_rfl
  rw [if_pos rfl] at hp hw
  refine ⟨hp, hw, ?_⟩
  intro j
  rw [hb j]
  have e : 4 * (WIDTH * HEIGHT) = FB_CAP := by decide
  rw [e]

theorem fbRun_add (pix : Nat → Nat × Nat × Nat) (t0 m : Nat) (s : FBState) :
    ∀ n, fbRun pix t0 (m + n) s = fbRun pix (t0 + m) n (fbRun pix t0 m s) := by
  intro n
  induction n with
  | zero => rfl
  | succ n ih =>
    show fbStep pix (t0 + (m + n)) (fbRun pix t0 (m + n) s) = _
    rw [ih, ← Nat.add_assoc]
    rfl

theorem fbRun_blocks (pix : Nat → Nat × Nat × Nat) (w0 : Nat)
    (b0 : Nat → Nat) :
    ∀ k, 1 ≤ k →
      (fbRun pix 0 (k * (WIDTH * HEIGHT)) ⟨0, w0, b0⟩).p_idx = 0 ∧
        (fbRun pix 0 (k * (WIDTH * HEIGHT)) ⟨0, w0, b0⟩).wraps = w0 + k ∧
        ∀ j, (fbRun pix 0 (k * (WIDTH * HEIGHT)) ⟨0, w0, b0⟩).buf j
          = if j < FB_CAP then pixByte pix ((k - 1) * (WIDTH * HEIGHT)) j
            else b0 j := by
  intro k
  induction k with
  | zero => omega
  | succ k ih =>
    intro _
    by_cases hk : 1 ≤ k
    · obtain ⟨hp, hw, hb⟩ := ih hk
      have hmul : (k + 1) * (WIDTH * HEIGHT)
          = k * (WIDTH * HEIGHT) + WIDTH * HEIGHT := by ring
      rw [hmul, fbRun_add pix 0 (k * (WIDTH * HEIGHT)) _ (WIDTH * HEIGHT)]
      obtain ⟨hp2, hw2, hb2⟩ :=
        fbRun_block pix (0 + k * (WIDTH * HEIGHT)) _ hp
      refine ⟨hp2, by rw [hw2, hw]; omega, ?_⟩
      intro j
      rw [hb2 j]
      by_cases hj : j < FB_CAP
      · rw [if_pos hj, if_pos hj, Nat.zero_add, Nat.add_sub_cancel]
      · rw [if_neg hj, if_neg hj, hb j, if_neg hj]
    · have hk0 : k = 0 := by omega
      subst hk0
      have hone : 1 * (WIDTH * HEIGHT) = WIDTH * HEIGHT := by ring
      rw [hone]
      obtain ⟨hp2, hw2, hb2⟩ :=
        fbRun_block pix 0 (⟨0, w0, b0⟩ : FBState) rfl
      refine ⟨hp2, hw2, ?_⟩
      intro j
      rw [hb2 j]
      rfl

/-- Claim C6: starting with the write index at `0`, running exactly
`5 * WIDTH * HEIGHT` ticks wraps the index exactly 5 times (ending back
at `0`), never writes outside the `WIDTH*HEIGHT*4`-byte buffer, and
leaves the buffer holding the most recent `WIDTH*HEIGHT` pixel samples
— those of ticks `4*WIDTH*HEIGHT .. 5*WIDTH*HEIGHT - 1` — in order,
one 4-byte `{r, g, b, 255}` sample per tick. -/
theorem c6_frame_wraparound (pix : Nat → Nat × Nat × Nat) (w0 : Nat)
    (b0 : Nat → Nat) :
    (fbRun pix 0 (5 * (WIDTH * HEIGHT)) ⟨0, w0, b0⟩).p_idx = 0 ∧
      (fbRun pix 0 (5 * (WIDTH * HEIGHT)) ⟨0, w0, b0⟩).wraps = w0 + 5 ∧
      (∀ j, FB_CAP ≤ j →
        (fbRun pix 0 (5 * (WIDTH * HEIGHT)) ⟨0, w0, b0⟩).buf j = b0 j) ∧
      ∀ q, q < WIDTH * HEIGHT →
        (fbRun pix 0 (5 * (WIDTH * HEIGHT)) ⟨0, w0, b0⟩).buf (4 * q)
            = (pix (4 * (WIDTH * HEIGHT) + q)).1 ∧
          (fbRun pix 0 (5 * (WIDTH * HEIGHT)) ⟨0, w0, b0⟩).buf (4 * q + 1)
            = (pix (4 * (WIDTH * HEIGHT) + q)).2.1 ∧
          (fbRun pix 0 (5 * (WIDTH * HEIGHT)) ⟨0, w0, b0⟩).buf (4 * q + 2)
            = (pix (4 * (WIDTH * HEIGHT) + q)).2.2 ∧
          (fbRun pix 0 (5 * (WIDTH * HEIGHT)) ⟨0, w0, b0⟩).buf (4 * q + 3)
            = 255 := by
  obtain ⟨hp, hw, hb⟩ := fbRun_blocks pix w0 b0 5 (by omega)
  have e5 : (5 - 1) * (WIDTH * HEIGHT) = 4 * (WIDTH * HEIGHT) := by norm_num
  rw [e5] at hb
  have eCAP : FB_CAP = 4 * (WIDTH * HEIGHT) := by decide
  refine ⟨hp, hw, ?_, ?_⟩
  · intro j hj
    rw [hb j, if_neg (by omega)]
  · intro q hq
    have hWH : WIDTH * HEIGHT = 76800 := rfl
    refine ⟨?_, ?_, ?_, ?_⟩
    · rw [hb (4 * q), if_pos (by omega)]
      have e1 : 4 * q % 4 = 0 := by omega
      have e2 : 4 * q / 4 = q := by omega
      simp [pixByte, e1, e2]
    · rw [hb (4 * q + 1), if_pos (by omega)]
      have e1 : (4 * q + 1) % 4 = 1 := by omega
      have e2 : (4 * q + 1) / 4 = q := by omega
      simp [pixByte, e1, e2]
    · rw [hb (4 * q + 2), if_pos (by omega)]
      have e1 : (4 * q + 2) % 4 = 2 := by omega
      have e2 : (4 * q + 2) / 4 = q := by omega
      simp [pixByte, e1, e2]
    · rw [hb (4 * q + 3), if_pos (by omega)]
      have e1 : (4 * q + 3) % 4 = 3 := by omega
      simp [pixByte, e1]

/-! ### Initial RAM pattern -/

theorem writePix_other (m : Mem) (x y j : Nat)
    (h : j < (y * WIDTH + x) * 4 ∨ (y * WIDTH + x) * 4 + 3 < j) :
    writePix m x y j = m j := by
  unfold writePix
  split
  · rw [store_other _ _ _ _ (by omega), store_other _ _ _ _ (by omega),
      store_other _ _ _ _ (by omega), store_other _ _ _ _ (by omega)]
  · rfl

theorem writePix_bytes (m : Mem) (x y : Nat)
    (hb : (y * WIDTH + x) * 4 + 3 < RAM_SIZE) :
    writePix m x y ((y * WIDTH + x) * 4) = x &&& 255 ∧
      writePix m x y ((y * WIDTH + x) * 4 + 1) = y &&& 255 ∧
      writePix m x y ((y * WIDTH + x) * 4 + 2) = (x + y) &&& 255 ∧
      writePix m x y ((y * WIDTH + x) * 4 + 3) = 255 := by
  unfold writePix
  rw [if_pos hb]
  refine ⟨?_, ?_, ?_, ?_⟩
  · rw [store_other _ _ _ _ (by omega), store_other _ _ _ _ (by omega),
      store_other _ _ _ _ (by omega), store_same]
  · rw [store_other _ _ _ _ (by omega), store_other _ _ _ _ (by omega),
      store_same]
  · rw [store_other _ _ _ _ (by omega), store_same]
  · rw [store_same]

theorem rowLoop_other (m : Mem) (y n j : Nat)
    (h : j < y * WIDTH * 4 ∨ (y * WIDTH + n) * 4 ≤ j) :
    rowLoop m y n j = m j := by
  induction n with
  | zero => rfl
  | succ n ih =>
    show writePix (rowLoop m y n) n y j = m j
    rw [writePix_other _ _ _ _ (by omega)]
    exact ih (by omega)

theorem rowLoop_bytes (m : Mem) (y x : Nat) (hy : y < HEIGHT) :
    ∀ n, x < n → n ≤ WIDTH →
      rowLoop m y n ((y * WIDTH + x) * 4) = x &&& 255 ∧
        rowLoop m y n ((y * WIDTH + x) * 4 + 1) = y &&& 255 ∧
        rowLoop m y n ((y * WIDTH + x) * 4 + 2) = (x + y) &&& 255 ∧
        rowLoop m y n ((y * WIDTH + x) * 4 + 3) = 255 := by
  intro n
  induction n with
  | zero => exact fun h _ => absurd h (Nat.not_lt_zero x)
  | succ n ih =>
    intro hx hn
    have hstep : rowLoop m y (n + 1) = writePix (rowLoop m y n) n y := rfl
    rw [hstep]
    by_cases hxn : x = n
    · subst hxn
      refine writePix_bytes (rowLoop m y x) x y ?_
      have hW : WIDTH = 320 := rfl
      have hH : HEIGHT = 240 := rfl
      have hR : RAM_SIZE = 1048576 := rfl
      rw [hW, hR]
      rw [hW] at hn
      rw [hH] at hy
      omega
    · have hx' : x < n := by omega
      have h0 := ih hx' (by omega)
      refine ⟨?_, ?_, ?_, ?_⟩
      · rw [writePix_other _ _ _ _ (by omega)]
        exact h0.1
      · rw [writePix_other _ _ _ _ (by omega)]
        exact h0.2.1
      · rw [writePix_other _ _ _ _ (by omega)]
        exact h0.2.2.1
      · rw [writePix_other _ _ _ _ (by omega)]
        exact h0.2.2.2

theorem rowsLoop_other (m : Mem) (j : Nat) :
    ∀ n, n * WIDTH * 4 ≤ j → rowsLoop m n j = m j := by
  intro n
  induction n with
  | zero => exact fun _ => rfl
  | succ n ih =>
    intro h
    have hW : WIDTH = 320 := rfl
    show rowLoop (rowsLoop m n) n WIDTH j = m j
    rw [rowLoop_other (rowsLoop m n) n WIDTH j
      (Or.inr (by rw [hW] at h ⊢; omega))]
    exact ih (by rw [hW] at h ⊢; omega)

theorem rowsLoop_bytes (m : Mem) (y x : Nat) (hx : x < WIDTH) :
    ∀ n, y < n → n ≤ HEIGHT →
      rowsLoop m n ((y * WIDTH + x) * 4) = x &&& 255 ∧
        rowsLoop m n ((y * WIDTH + x) * 4 + 1) = y &&& 255 ∧
        rowsLoop m n ((y * WIDTH + x) * 4 + 2) = (x + y) &&& 255 ∧
        rowsLoop m n ((y * WIDTH + x) * 4 + 3) = 255 := by
  intro n
  induction n with
  | zero => exact fun h _ => absurd h (Nat.not_lt_zero y)
  | succ n ih =>
    intro hy hn
    have hW : WIDTH = 320 := rfl
    have hstep : rowsLoop m (n + 1) = rowLoop (rowsLoop m n) n WIDTH := rfl
    rw [hstep]
    by_cases hyn : y = n
    · subst hyn
      exact rowLoop_bytes (rowsLoop m y) y x (by omega) WIDTH hx le_rfl
    · have hy' : y < n := by omega
      have h0 := ih hy' (by omega)
      rw [hW] at hx
      refine ⟨?_, ?_, ?_, ?_⟩
      · rw [rowLoop_other _ _ _ _ (Or.inl (by rw [hW]; omega))]
        exact h0.1
      · rw [rowLoop_other _ _ _ _ (Or.inl (by rw [hW]; omega))]
        exact h0.2.1
      · rw [rowLoop_other _ _ _ _ (Or.inl (by rw [hW]; omega))]
        exact h0.2.2.1
      · rw [rowLoop_other _ _ _ _ (Or.inl (by rw [hW]; omega))]
        exact h0.2.2.2

/-- Claim C10: the constructor zeroes the whole memory image and then
`init_ram_pattern` writes the test gradient: for every pixel
`(x, y)` with `x < 320`, `y < 240`, the bytes at `(y*WIDTH + x) * 4`
are `{x & 0xFF, y & 0xFF, (x+y) & 0xFF, 0xFF}`, and every address at or
beyond the gradient region (in particular the whole rest of the 1 MiB
image) is still `0` — the `vram_init` loader is never invoked, so no
palette/tile/map/OAM content is present. -/
theorem c10_init_ram (x y : Nat) (hx : x < WIDTH) (hy : y < HEIGHT) :
    initRam ((y * WIDTH + x) * 4) = x &&& 255 ∧
      initRam ((y * WIDTH + x) * 4 + 1) = y &&& 255 ∧
      initRam ((y * WIDTH + x) * 4 + 2) = (x + y) &&& 255 ∧
      initRam ((y * WIDTH + x) * 4 + 3) = 255 ∧
      ∀ a, WIDTH * HEIGHT * 4 ≤ a → initRam a = 0 := by
  have h := rowsLoop_bytes (fun _ => 0) y x hx HEIGHT hy le_rfl
  refine ⟨h.1, h.2.1, h.2.2.1, h.2.2.2, ?_⟩
  intro a ha
  show rowsLoop (fun _ => 0) HEIGHT a = 0
  have e : HEIGHT * WIDTH * 4 = WIDTH * HEIGHT * 4 := by ring
  rw [rowsLoop_other (fun _ => 0) a HEIGHT (by omega)]

theorem c10_init_ram_witness :
    initRam ((2 * WIDTH + 1) * 4) = 1 &&& 255 ∧
      initRam ((2 * WIDTH + 1) * 4 + 1) = 2 &&& 255 ∧
      initRam ((2 * WIDTH + 1) * 4 + 2) = (1 + 2) &&& 255 ∧
      initRam ((2 * WIDTH + 1) * 4 + 3) = 255 ∧
      initRam 307200 = 0 := by
  have h := c10_init_ram 1 2 (by decide) (by decide)
  exact ⟨h.1, h.2.1, h.2.2.1, h.2.2.2.1, h.2.2.2.2 307200 (by decide)⟩

theorem c3_grant_latency_witness :
    (runArb (fun _ => 0) (fun _ => 1) 1).cpu_bg_n = 1 ∧
      (runArb (fun _ => 0) (fun _ => 1) 4).cpu_bg_n = 1 ∧
      (runArb (fun _ => 0) (fun _ => 1) 5).cpu_bg_n = 0 ∧
      (runArb (fun _ => 0) (fun _ => 1) 9).cpu_bg_n = 0 := by
  have h := c3_grant_latency (fun _ => 0) (fun _ => 1) 0
    (fun _ => rfl) (by decide)
  exact ⟨h.1 0 (by decide), h.1 3 (by decide), h.2 4 (by decide),
    h.2 8 (by decide)⟩
